import Mathlib

/-!
Verification development for the demikernel queue library
(src/libos/libmtcp/mtcp-queue.cc, the stream backend, and
src/unnamed/part_000 = lwip_queue.cc, the packet backend).

Modelling conventions:
* machine integers are Nat with explicit `% 2^w` where overflow matters;
* byte buffers are `List Nat` (each element one byte);
* the target host is little-endian x86-64 (the DPDK/mTCP deployment), so
  `htons`/`ntohs`/`htonl` are byte swaps and in-memory u32/u64 cells are
  little-endian;
* `size_t` cells in the stream framing are 8 bytes, the packet framing
  uses 4-byte `uint32_t` cells, so the cell codec is parametrised by a
  width `w`;
* C `assert` statements are debug-only (inactive under NDEBUG) and are
  not part of the modelled behaviour;
* a read/write transport call that would block is modelled by an empty
  available-byte list (reads) or a zero acceptance cap (writes); hard
  transport errors are outside the modelled transport.
-/

namespace Demikernel

/-- Little-endian encoding of `n` into `w` bytes (the in-memory image of a
`w`-byte unsigned integer cell holding `n % 256^w`). -/
def leEnc : Nat → Nat → List Nat
  | 0, _ => []
  | w + 1, n => n % 256 :: leEnc w (n / 256)

/-- Little-endian decoding of the first `w` bytes of a byte list (reading a
`w`-byte unsigned integer cell from memory; missing bytes read as zero). -/
def leDec : Nat → List Nat → Nat
  | 0, _ => 0
  | _ + 1, [] => 0
  | w + 1, b :: bs => b + 256 * leDec w bs

@[simp] theorem leEnc_succ (w n : Nat) :
    leEnc (w + 1) n = n % 256 :: leEnc w (n / 256) := rfl

@[simp] theorem leDec_succ_cons (w b : Nat) (bs : List Nat) :
    leDec (w + 1) (b :: bs) = b + 256 * leDec w bs := rfl

@[simp] theorem leEnc_length (w n : Nat) : (leEnc w n).length = w := by
  induction w generalizing n with
  | zero => rfl
  | succ w ih => simp [ih]

theorem leDec_leEnc_append (w n : Nat) (rest : List Nat) :
    leDec w (leEnc w n ++ rest) = n % 256 ^ w := by
  induction w generalizing n with
  | zero => simp [leEnc, leDec, Nat.mod_one]
  | succ w ih =>
    rw [leEnc_succ, List.cons_append, leDec_succ_cons, ih, Nat.pow_succ', Nat.mod_mul]

theorem leDec_leEnc (w n : Nat) (h : n < 256 ^ w) :
    leDec w (leEnc w n ++ []) = n := by
  rw [leDec_leEnc_append, Nat.mod_eq_of_lt h]

/-- Drop the `w` bytes of an encoded cell. -/
theorem drop_leEnc (w n : Nat) (rest : List Nat) :
    (leEnc w n ++ rest).drop w = rest :=
  List.drop_left' (leEnc_length w n)

/-- Total payload byte count of a scatter-gather array: the sum of the
segment lengths (src: `dataSize` in ProcessOutgoing, `len` in
ProcessIncoming). -/
def payload (sga : List (List Nat)) : Nat := (sga.map List.length).sum

@[simp] theorem payload_nil : payload [] = 0 := rfl

@[simp] theorem payload_cons (b : List Nat) (t : List (List Nat)) :
    payload (b :: t) = b.length + payload t := by
  simp [payload]

/-- Per-segment wire encoding: a `w`-byte length cell followed by the
segment body (src: the `vsga[2*i+1]`/`vsga[2*i+2]` iovec pair in
ProcessOutgoing; the `u32` length/body pairs in complete_send). -/
def encSegs (w : Nat) (segs : List (List Nat)) : List Nat :=
  segs.flatMap (fun b => leEnc w b.length ++ b)

@[simp] theorem encSegs_nil (w : Nat) : encSegs w [] = [] := rfl

@[simp] theorem encSegs_cons (w : Nat) (b : List Nat) (t : List (List Nat)) :
    encSegs w (b :: t) = leEnc w b.length ++ (b ++ encSegs w t) := by
  simp [encSegs]

theorem encSegs_length (w : Nat) (segs : List (List Nat)) :
    (encSegs w segs).length = (segs.map (fun b => b.length + w)).sum := by
  induction segs with
  | nil => rfl
  | cons b t ih => simp [encSegs_cons, ih]; omega

/-- Segment-slicing decoder (src: the `for i in 0..num_bufs` loops of
ProcessIncoming lines 372-378 and complete_recv lines 682-702): for each
of `n` segments consume a `w`-byte length cell, then that many body bytes;
also accumulates the running payload total `len`. -/
def parseSegs (w : Nat) : Nat → List Nat → List (List Nat) × Nat
  | 0, _ => ([], 0)
  | n + 1, bs =>
    let len := leDec w bs
    let body := (bs.drop w).take len
    let r := parseSegs w n ((bs.drop w).drop len)
    (body :: r.1, len + r.2)

/-- Decoding inverts encoding segment-wise, as long as every segment length
fits in its `w`-byte cell. -/
theorem parseSegs_encSegs (w : Nat) (segs : List (List Nat))
    (h : ∀ b ∈ segs, b.length < 256 ^ w) :
    parseSegs w segs.length (encSegs w segs) = (segs, payload segs) := by
  induction segs with
  | nil => simp [parseSegs]
  | cons b t ih =>
    have hb : b.length < 256 ^ w := h b (by simp)
    have ht : ∀ x ∈ t, x.length < 256 ^ w := fun x hx => h x (by simp [hx])
    simp only [encSegs_cons, List.length_cons, parseSegs]
    rw [leDec_leEnc_append, Nat.mod_eq_of_lt hb, drop_leEnc,
      List.take_left, List.drop_left, ih ht, payload_cons]

/-- Modelled from the spec: `MAGIC` is the fixed 64-bit sentinel that begins
every stream-backend frame (defined in the mtcp-queue.h header, which is not
part of src/); none of the properties proved here depend on its exact value,
only on it being a fixed constant below 2^64. -/
def MAGIC : Nat := 0x10102010

/-- Modelled from the spec (section 4.5): the `IS_PUSH(qt)` predicate from the
missing common header; the low bit of a queue token is the operation bit,
1 = push, 0 = pop. -/
def IS_PUSH (qt : Nat) : Prop := qt % 2 = 1

instance (qt : Nat) : Decidable (IS_PUSH qt) := by unfold IS_PUSH; infer_instance

namespace MTCP

/-- One in-flight request (the `PendingRequest` record used by
mtcp-queue.cc; the struct itself lives in the missing header but every
field is determined by its uses in the .cc file):
`header` holds the bytes placed so far into the 24-byte `uint64_t header[3]`
region, `numBytes` is `req.num_bytes`, `buf` is the lazily `malloc`ed
payload buffer (`none` = NULL) together with the bytes placed into it so
far (ProcessIncoming only ever writes at offset `num_bytes - 24`, i.e.
appends), `sga` the scatter-gather array, `isDone`/`res` the completion
flag and result. -/
structure PendingReq where
  header : List Nat
  numBytes : Nat
  buf : Option (List Nat)
  sga : List (List Nat)
  isDone : Bool
  res : Int
  deriving DecidableEq, Repr

/-- A freshly constructed pop-side `PendingRequest req(sga)`. -/
def freshReq : PendingReq :=
  { header := [], numBytes := 0, buf := none, sga := [], isDone := false, res := 0 }

/-- Sum of `sga.bufs[i].len + sizeof(size_t)` over the segments: the value
ProcessOutgoing stores in `header[1]` (`totalLen` before the header size is
added). -/
def encLen (sga : List (List Nat)) : Nat := (sga.map (fun b => b.length + 8)).sum

/-- The complete wire frame ProcessOutgoing hands to `mtcp_writev`:
24-byte header (MAGIC, payload length, segment count, each a host-order
u64), then per segment an 8-byte length cell and the segment body
(mtcp-queue.cc lines 395-427). -/
def encodeFrame (sga : List (List Nat)) : List Nat :=
  leEnc 8 MAGIC ++ leEnc 8 (encLen sga) ++ leEnc 8 sga.length ++ encSegs 8 sga

/-- Final slicing step of ProcessIncoming (lines 367-385): once the whole
payload is buffered, read `seg_count` from `header[2]` and slice the payload
buffer into (length cell, body) records; `res` is the accumulated payload
byte total `len`. -/
def parseDone (req : PendingReq) : PendingReq :=
  let p := parseSegs 8 (leDec 8 (req.header.drop 16)) (req.buf.getD [])
  { req with sga := p.1, isDone := true, res := (p.2 : Int) }

/-- ProcessIncoming after the header is complete (lines 331-365): check
`header[0] == MAGIC` (mismatch → done with `-1`), read `payload_len` from
`header[1]`, allocate the payload buffer if still NULL, then read the
remaining payload bytes; when the payload is complete fall through to the
slicing step.  An empty available-byte list models `mtcp_read` returning
would-block. -/
def stage2 (req : PendingReq) (avail : List Nat) : PendingReq × List Nat :=
  if leDec 8 req.header ≠ MAGIC then
    ({ req with isDone := true, res := -1 }, avail)
  else
    let dataLen := leDec 8 (req.header.drop 8)
    let req1 := if req.buf = none then { req with buf := some [] } else req
    if req1.numBytes < 24 + dataLen then
      if avail = [] then (req1, avail)
      else
        let want := dataLen - (req1.numBytes - 24)
        let got := avail.take want
        let req2 := { req1 with buf := some (req1.buf.getD [] ++ got),
                                numBytes := req1.numBytes + got.length }
        if req2.numBytes < 24 + dataLen then (req2, avail.drop want)
        else (parseDone req2, avail.drop want)
    else (parseDone req1, avail)

/-- Model of `MTCPQueue::ProcessIncoming` (lines 287-387) for a non-listening data
queue (the `listening` accept prelude of lines 290-306 is inactive), acting
on the bytes the transport currently holds: while fewer than 24 bytes have
arrived, read into the header region; once the header is complete fall
through to the magic check / payload phase.  Returns the updated request
and the bytes left in the transport. -/
def ProcessIncoming (req : PendingReq) (avail : List Nat) : PendingReq × List Nat :=
  if req.numBytes < 24 then
    if avail = [] then (req, avail)
    else
      let want := 24 - req.numBytes
      let got := avail.take want
      let req1 := { req with header := req.header ++ got,
                             numBytes := req.numBytes + got.length }
      if req1.numBytes < 24 then (req1, avail.drop want)
      else stage2 req1 (avail.drop want)
  else stage2 req avail

/-- Model of `MTCPQueue::ProcessOutgoing` (lines 389-454): build the iovec
(header, then per-segment length cell and body), fill `header` with MAGIC,
the payload length and the segment count, and write; the transport accepts
up to `txCap` bytes.  When everything up to `totalLen` has been written the
request completes with `res = dataSize`, the payload byte total.  Returns
the updated request and the bytes actually written. -/
def ProcessOutgoing (req : PendingReq) (txCap : Nat) : PendingReq × List Nat :=
  let wire := encodeFrame req.sga
  let totalLen := 24 + encLen req.sga
  let req1 := { req with header := leEnc 8 MAGIC ++ leEnc 8 (encLen req.sga)
                                     ++ leEnc 8 req.sga.length }
  let count := min txCap totalLen
  let req2 := { req1 with numBytes := req1.numBytes + count }
  if req2.numBytes < totalLen then (req2, wire.take count)
  else ({ req2 with isDone := true, res := (payload req.sga : Int) }, wire.take count)

/-- Feeding the byte stream to a pop request one byte at a time: each
`ProcessIncoming` call sees exactly the one newly delivered byte. -/
def feedBytes (req : PendingReq) : List Nat → PendingReq
  | [] => req
  | b :: bs => feedBytes (ProcessIncoming req [b]).1 bs

/-- Intermediate decoder state after exactly `k` of the frame's bytes have
been consumed: below 24 the header region holds the first `k` wire bytes
and no payload buffer exists; from 24 on the header is complete and the
payload buffer holds the next `k - 24` bytes. -/
def midReq (hdr pay : List Nat) (k : Nat) : PendingReq :=
  if k < 24 then
    { header := hdr.take k, numBytes := k, buf := none, sga := [], isDone := false, res := 0 }
  else
    { header := hdr, numBytes := k, buf := some (pay.take (k - 24)), sga := [],
      isDone := false, res := 0 }

/-- Decoder state after the whole frame has been consumed and sliced. -/
def doneReq (hdr pay : List Nat) : PendingReq :=
  let p := parseSegs 8 (leDec 8 (hdr.drop 16)) pay
  { header := hdr, numBytes := 24 + pay.length, buf := some pay, sga := p.1,
    isDone := true, res := (p.2 : Int) }

theorem take_append_getElem {α : Type} (l : List α) (k : Nat) (h : k < l.length) :
    l.take k ++ [l[k]] = l.take (k + 1) := by
  rw [← List.take_concat_get l k h, List.concat_eq_append]

/-- One-byte progress: delivering wire byte `k` to the decoder in state
`midReq k` advances it to state `midReq (k+1)`, or to the completed state
when that was the last byte of the frame. -/
theorem ProcessIncoming_step (hdr pay : List Nat) (k : Nat)
    (hhdr : hdr.length = 24) (hmag : leDec 8 hdr = MAGIC)
    (hdl : leDec 8 (hdr.drop 8) = pay.length) (hpos : 0 < pay.length)
    (hk : k < 24 + pay.length) :
    ProcessIncoming (midReq hdr pay k) [(hdr ++ pay).getD k 0] =
      (if k + 1 < 24 + pay.length then midReq hdr pay (k + 1) else doneReq hdr pay, []) := by
  set b := (hdr ++ pay).getD k 0 with hbdef
  by_cases hk24 : k < 24
  · -- header phase
    have hklt : k < hdr.length := by omega
    have hb : b = hdr[k] := by
      rw [hbdef, List.getD_append _ _ _ _ (by omega), List.getD_eq_getElem _ _ hklt]
    have h1 : (1 : Nat) ≤ 24 - k := by omega
    have htk : List.take (24 - k) [b] = [b] := List.take_of_length_le (by simpa using h1)
    have hdk : List.drop (24 - k) [b] = ([] : List Nat) :=
      List.drop_of_length_le (by simpa using h1)
    have htake : hdr.take k ++ [b] = hdr.take (k + 1) := by
      rw [hb]; exact take_append_getElem hdr k (by omega)
    simp only [midReq, if_pos hk24, ProcessIncoming]
    rw [if_neg (show ¬(([b] : List Nat) = []) from by simp)]
    simp only [htk, hdk, List.length_singleton, htake]
    by_cases hk23 : k + 1 < 24
    · rw [if_pos hk23, if_pos (show k + 1 < 24 + pay.length by omega), if_pos hk23]
    · -- k = 23: the header completes and stage2 runs with nothing left to read
      have hk' : k = 23 := by omega
      subst hk'
      rw [if_neg hk23, List.take_of_length_le (by omega)]
      simp only [stage2]
      rw [if_neg (by simp [hmag])]
      simp only [hdl]
      have h24 : (23 + 1 : Nat) < 24 + pay.length := by omega
      simp [h24, midReq, show ¬(23 + 1 < 24) by omega]
  · -- payload phase
    have hge : 24 ≤ k := by omega
    have hplt : k - 24 < pay.length := by omega
    have hb : b = pay[k - 24] := by
      rw [hbdef, List.getD_append_right _ _ _ _ (by omega), hhdr,
        List.getD_eq_getElem _ _ hplt]
    have hwant : (1 : Nat) ≤ pay.length - (k - 24) := by omega
    have htk : List.take (pay.length - (k - 24)) [b] = [b] :=
      List.take_of_length_le (by simpa using hwant)
    have hdk : List.drop (pay.length - (k - 24)) [b] = ([] : List Nat) :=
      List.drop_of_length_le (by simpa using hwant)
    have htake : pay.take (k - 24) ++ [b] = pay.take (k + 1 - 24) := by
      rw [hb, take_append_getElem pay (k - 24) (by omega),
        show k - 24 + 1 = k + 1 - 24 by omega]
    simp only [midReq, if_neg hk24, ProcessIncoming]
    simp only [stage2]
    rw [if_neg (by simp [hmag])]
    simp only [hdl]
    rw [if_neg (show ¬((some (pay.take (k - 24)) : Option (List Nat)) = none) by simp),
      if_pos (show k < 24 + pay.length from hk),
      if_neg (show ¬(([b] : List Nat) = []) from by simp)]
    simp only [htk, hdk, List.length_singleton, Option.getD_some, htake]
    by_cases hlast : k + 1 < 24 + pay.length
    · rw [if_pos hlast, if_pos hlast, if_neg (show ¬(k + 1 < 24) by omega)]
    · rw [if_neg hlast, if_neg hlast]
      have hfin : k + 1 - 24 = pay.length := by omega
      have hnum : k + 1 = 24 + pay.length := by omega
      rw [hfin, List.take_of_length_le (le_refl _)]
      simp only [parseDone, doneReq, Option.getD_some, hnum]

/-- Feeding, byte by byte, the remainder of a frame to a decoder that has
already consumed `k` of its bytes completes the decode. -/
theorem feedBytes_mid (hdr pay : List Nat)
    (hhdr : hdr.length = 24) (hmag : leDec 8 hdr = MAGIC)
    (hdl : leDec 8 (hdr.drop 8) = pay.length) (hpos : 0 < pay.length) :
    ∀ (suf : List Nat) (k : Nat), k + suf.length = 24 + pay.length →
      suf = (hdr ++ pay).drop k → suf ≠ [] →
      feedBytes (midReq hdr pay k) suf = doneReq hdr pay := by
  intro suf
  induction suf with
  | nil => intro k _ _ hne; exact absurd rfl hne
  | cons b bs ih =>
    intro k hlen hdrop _
    have hk : k < 24 + pay.length := by
      simp only [List.length_cons] at hlen; omega
    have hklen : k < (hdr ++ pay).length := by
      simp only [List.length_append, hhdr]; omega
    have hsplit := List.drop_eq_getElem_cons hklen
    rw [← hdrop] at hsplit
    have hb : b = (hdr ++ pay).getD k 0 := by
      have := (List.cons.injEq b bs _ _).mp hsplit
      rw [this.1, List.getD_eq_getElem _ _ hklen]
    have hbs : bs = (hdr ++ pay).drop (k + 1) :=
      ((List.cons.injEq b bs _ _).mp hsplit).2
    rw [feedBytes, hb, ProcessIncoming_step hdr pay k hhdr hmag hdl hpos hk]
    by_cases hnext : k + 1 < 24 + pay.length
    · rw [if_pos hnext]
      apply ih (k + 1)
      · simp only [List.length_cons] at hlen; omega
      · exact hbs
      · intro hbs0
        rw [hbs0] at hlen
        simp only [List.length_cons, List.length_nil] at hlen
        omega
    · rw [if_neg hnext]
      have : bs = [] := by
        have hlen' : bs.length = 0 := by
          simp only [List.length_cons] at hlen; omega
        exact List.eq_nil_of_length_eq_zero hlen'
      rw [this, feedBytes]

/-- Feeding a complete well-formed frame byte by byte to a fresh pop
request runs the decoder to completion. -/
theorem feedBytes_frame (hdr pay : List Nat)
    (hhdr : hdr.length = 24) (hmag : leDec 8 hdr = MAGIC)
    (hdl : leDec 8 (hdr.drop 8) = pay.length) (hpos : 0 < pay.length) :
    feedBytes freshReq (hdr ++ pay) = doneReq hdr pay := by
  have h0 : freshReq = midReq hdr pay 0 := by
    simp [freshReq, midReq]
  rw [h0]
  apply feedBytes_mid hdr pay hhdr hmag hdl hpos (hdr ++ pay) 0
  · simp [List.length_append, hhdr]
  · rfl
  · intro h
    have := congrArg List.length h
    simp [List.length_append, hhdr] at this

@[simp] theorem midReq_isDone (hdr pay : List Nat) (k : Nat) :
    (midReq hdr pay k).isDone = false := by
  unfold midReq
  split_ifs <;> rfl

/-- A single ProcessIncoming call on a fresh request consumes a nonempty
proper prefix of a frame — header bytes alone, or the complete header plus
part of the payload — entirely, and leaves the decoder in the
corresponding intermediate, not-done state. -/
theorem ProcessIncoming_prefix (hdr pay : List Nat) (k : Nat)
    (hhdr : hdr.length = 24) (hmag : leDec 8 hdr = MAGIC)
    (hdl : leDec 8 (hdr.drop 8) = pay.length) (hpos : 0 < pay.length)
    (hk0 : 0 < k) (hk : k < 24 + pay.length) :
    ProcessIncoming freshReq ((hdr ++ pay).take k) = (midReq hdr pay k, []) := by
  by_cases hk24 : k < 24
  · -- a proper prefix of the header region
    have havail : (hdr ++ pay).take k = hdr.take k := by
      rw [List.take_append_eq_append_take, Nat.sub_eq_zero_of_le (by omega),
        List.take_zero, List.append_nil]
    have hlen : (hdr.take k).length = k := by
      rw [List.length_take]
      omega
    rw [havail]
    unfold ProcessIncoming
    rw [if_pos (show freshReq.numBytes < 24 by decide)]
    rw [if_neg (show ¬(hdr.take k = []) from fun h0 => by
      rw [h0] at hlen
      simp at hlen
      omega)]
    simp only [freshReq]
    rw [List.take_of_length_le (by omega), List.drop_of_length_le (by omega), hlen]
    rw [if_pos (show 0 + k < 24 by omega)]
    rw [midReq, if_pos hk24]
    simp
  · -- the complete header plus a (possibly empty) proper part of the payload
    have hge : (24 : Nat) ≤ k := by omega
    have havail : (hdr ++ pay).take k = hdr ++ pay.take (k - 24) := by
      rw [List.take_append_eq_append_take, hhdr, List.take_of_length_le (by omega)]
    have hrestlen : (pay.take (k - 24)).length = k - 24 := by
      rw [List.length_take]
      omega
    rw [havail]
    unfold ProcessIncoming
    rw [if_pos (show freshReq.numBytes < 24 by decide)]
    rw [if_neg (show ¬(hdr ++ pay.take (k - 24) = []) from fun h0 => by
      have := congrArg List.length h0
      simp [hhdr] at this)]
    simp only [freshReq]
    rw [show (24 : Nat) - 0 = 24 from rfl, List.take_left' hhdr, List.drop_left' hhdr,
      hhdr]
    rw [if_neg (show ¬(0 + 24 < 24) by omega)]
    unfold stage2
    rw [if_neg (by simp [hmag])]
    simp only [List.nil_append, hdl]
    have h24lt : (24 : Nat) < 24 + pay.length := by omega
    by_cases hk24' : k = 24
    · subst hk24'
      simp [h24lt, midReq]
    · have hne : ¬(List.take (k - 24) pay = []) := fun h0 => by
        rw [h0] at hrestlen
        simp at hrestlen
        omega
      have htk : List.take pay.length (List.take (k - 24) pay) = List.take (k - 24) pay :=
        List.take_of_length_le (by omega)
      have hdk : List.drop pay.length (List.take (k - 24) pay) = [] :=
        List.drop_of_length_le (by omega)
      simp [h24lt, hne, htk, hdk, hrestlen, midReq, hk24, hk,
        show 24 + (k - 24) = k by omega]

/-- The 24 header bytes ProcessOutgoing writes for `sga`. -/
def frameHdr (sga : List (List Nat)) : List Nat :=
  leEnc 8 MAGIC ++ (leEnc 8 (encLen sga) ++ leEnc 8 sga.length)

theorem encodeFrame_eq (sga : List (List Nat)) :
    encodeFrame sga = frameHdr sga ++ encSegs 8 sga := by
  simp [encodeFrame, frameHdr, List.append_assoc]

theorem encLen_eq (sga : List (List Nat)) :
    encLen sga = payload sga + 8 * sga.length := by
  induction sga with
  | nil => rfl
  | cons b t ih => simp [encLen, payload] at ih ⊢; omega

theorem leDec_leEnc' (w n : Nat) (h : n < 256 ^ w) : leDec w (leEnc w n) = n := by
  have := leDec_leEnc_append w n []
  rw [List.append_nil] at this
  rw [this, Nat.mod_eq_of_lt h]

theorem frameHdr_length (sga : List (List Nat)) : (frameHdr sga).length = 24 := by
  simp [frameHdr]

theorem frameHdr_dec0 (sga : List (List Nat)) : leDec 8 (frameHdr sga) = MAGIC := by
  rw [frameHdr, leDec_leEnc_append]
  decide

theorem frameHdr_drop8 (sga : List (List Nat)) :
    (frameHdr sga).drop 8 = leEnc 8 (encLen sga) ++ leEnc 8 sga.length := by
  rw [frameHdr, drop_leEnc]

theorem frameHdr_drop16 (sga : List (List Nat)) :
    (frameHdr sga).drop 16 = leEnc 8 sga.length := by
  rw [show (16 : Nat) = 8 + 8 from rfl, ← List.drop_drop, frameHdr_drop8, drop_leEnc]

/-- Byte-by-byte decode of an encoded frame: the master round-trip fact for
the stream backend. -/
theorem feedBytes_encodeFrame (sga : List (List Nat))
    (h1 : 1 ≤ sga.length) (h2 : sga.length ≤ 8) (h3 : payload sga ≤ 65536) :
    feedBytes freshReq (encodeFrame sga) =
      { header := frameHdr sga, numBytes := 24 + encLen sga,
        buf := some (encSegs 8 sga), sga := sga, isDone := true,
        res := (payload sga : Int) } := by
  have hlen64 : encLen sga < 256 ^ 8 := by
    have := encLen_eq sga
    norm_num
    omega
  have hcnt64 : sga.length < 256 ^ 8 := by norm_num; omega
  have hpaylen : (encSegs 8 sga).length = encLen sga := encSegs_length 8 sga
  have hdl : leDec 8 ((frameHdr sga).drop 8) = (encSegs 8 sga).length := by
    rw [frameHdr_drop8, leDec_leEnc_append, Nat.mod_eq_of_lt hlen64, hpaylen]
  have hpos : 0 < (encSegs 8 sga).length := by
    rw [hpaylen, encLen_eq]
    omega
  have hseg : ∀ b ∈ sga, b.length < 256 ^ 8 := by
    intro b hb
    have hle : b.length ≤ payload sga := by
      apply List.single_le_sum (fun x _ => Nat.zero_le x)
      exact List.mem_map_of_mem List.length hb
    norm_num
    omega
  rw [encodeFrame_eq,
    feedBytes_frame (frameHdr sga) (encSegs 8 sga) (frameHdr_length sga)
      (frameHdr_dec0 sga) hdl hpos]
  rw [doneReq, frameHdr_drop16, leDec_leEnc' 8 sga.length hcnt64,
    parseSegs_encSegs 8 sga hseg, hpaylen]

/-- Observable state of one `MTCPQueue`: the pending map (`std::map`
modelled as an association list with unique keys), the FIFO work queue of
tokens, the bytes the byte-stream transport currently holds for reading,
and the number of bytes the transport will accept per write. -/
structure QState where
  pending : List (Nat × PendingReq)
  workQ : List Nat
  stream : List Nat
  txCap : Nat
  deriving DecidableEq, Repr

/-- In-place mutation of the pending-map entry for `qt`
(`it->second = ...` through the iterator in ProcessQ). -/
def updatePending (m : List (Nat × PendingReq)) (qt : Nat) (v : PendingReq) :
    List (Nat × PendingReq) :=
  m.map (fun p => if p.1 = qt then (qt, v) else p)

/-- Model of `MTCPQueue::ProcessQ(maxRequests)` (lines 456-481): up to `fuel`
iterations; each takes the head work-queue token, looks it up in the
pending map (a missing entry — cancelled token — is discarded without
dispatching), dispatches to ProcessOutgoing or ProcessIncoming by the
token's operation bit, and pops the token iff the request is now done. -/
def ProcessQ : Nat → QState → QState
  | 0, q => q
  | fuel + 1, q =>
    match q.workQ with
    | [] => q
    | qt :: rest =>
      match List.lookup qt q.pending with
      | none => ProcessQ fuel { q with workQ := rest }
      | some req =>
        let d := if IS_PUSH qt then ((ProcessOutgoing req q.txCap).1, q.stream)
                 else ProcessIncoming req q.stream
        let q1 := { q with pending := updatePending q.pending qt d.1, stream := d.2 }
        ProcessQ fuel (if d.1.isDone then { q1 with workQ := rest } else q1)

/-- Model of `MTCPQueue::poll` (lines 588-599): look the token up (the source
asserts presence; an unknown token is modelled as `none`), and if the
request is done return its result and its decoded SGA, else return 0; the
queue state is returned unchanged — poll performs no mutation. -/
def poll (q : QState) (qt : Nat) : Option (Int × Option (List (List Nat)) × QState) :=
  match List.lookup qt q.pending with
  | none => none
  | some req =>
    if req.isDone then some (req.res, some req.sga, q) else some (0, none, q)

/-- Model of `MTCPQueue::wait` (lines 565-586): look the token up, then loop
`ProcessQ(1)` until the request reports done and return its result (the
source never assigns the out sga in wait).  `fuel` bounds the busy-loop;
`none` models an unknown token or fuel exhaustion (the real loop spins
forever). -/
def wait (qt : Nat) : Nat → QState → Option (Int × QState)
  | 0, q =>
    match List.lookup qt q.pending with
    | none => none
    | some req => if req.isDone then some (req.res, q) else none
  | fuel + 1, q =>
    match List.lookup qt q.pending with
    | none => none
    | some req =>
      if req.isDone then some (req.res, q) else wait qt fuel (ProcessQ 1 q)

/-- Model of `MTCPQueue::peek` (lines 546-563): construct a throwaway local
`PendingRequest req(sga)`, run ProcessIncoming once against the transport,
and return its result if it completed, else 0.  The local request — and
with it any bytes ProcessIncoming moved into it — is discarded. -/
def peek (q : QState) : Int × QState :=
  let d := ProcessIncoming freshReq q.stream
  if d.1.isDone then (d.1.res, { q with stream := d.2 })
  else (0, { q with stream := d.2 })

/-- The fields of `MTCPQueue` that its `socket` method touches: the queue's
own descriptor `qd` and the transport handle `mtcp_qd`. -/
structure SockState where
  qd : Int
  mtcp_qd : Int
  deriving DecidableEq, Repr

/-- Model of `MTCPQueue::socket` (lines 130-142): store the result of
`mtcp_socket` (`sockRet`, negative on failure) into `mtcp_qd` without
checking it, then return the queue's own `qd`.  Result is the pair
(return value, updated object). -/
def socketOp (s : SockState) (sockRet : Int) : Int × SockState :=
  ({ s with mtcp_qd := sockRet }.qd, { s with mtcp_qd := sockRet })

end MTCP

namespace Lwip

/-- The `htons`/`ntohs` conversion on the little-endian x86-64 host: swap the two bytes of
a 16-bit value (the result of the C cast masks to 16 bits). -/
def swap16 (n : Nat) : Nat := n % 256 * 256 + n / 256 % 256

/-- The `htonl`/`ntohl` conversion on the little-endian host: reverse the four bytes of a
32-bit value. -/
def swap32 (n : Nat) : Nat :=
  n % 256 * 2 ^ 24 + n / 2 ^ 8 % 256 * 2 ^ 16 + n / 2 ^ 16 % 256 * 2 ^ 8 + n / 2 ^ 24 % 256

theorem swap16_swap16 (n : Nat) (h : n < 2 ^ 16) : swap16 (swap16 n) = n := by
  unfold swap16
  have h2 : (n % 256 * 256 + n / 256 % 256) % 256 = n / 256 := by omega
  have h3 : (n % 256 * 256 + n / 256 % 256) / 256 = n % 256 := by omega
  rw [h2, h3]
  omega

theorem swap16_lt (n : Nat) : swap16 n < 2 ^ 16 := by
  unfold swap16
  omega

/-- A MAC address: six bytes (`struct ether_addr`). -/
abbrev Mac := List Nat

def etherBroadcast : Mac := [0xff, 0xff, 0xff, 0xff, 0xff, 0xff]

/-- The compiled-in `ip_config` table (lwip_queue.cc lines 79-88): MAC to
host-order IPv4 address, for eth1 on cassance (10.0.0.5) and eth1 on
hightent (10.0.0.7). -/
def ipConfig : List (Mac × Nat) :=
  [([0x00, 0x0d, 0x3a, 0x70, 0x25, 0x75], 10 * 2 ^ 24 + 5),
   ([0x00, 0x0d, 0x3a, 0x5e, 0x4f, 0x6e], 10 * 2 ^ 24 + 7)]

/-- Table lookup `ip_to_mac` (lines 107-117): look a host-order IP up in the table;
unknown IPs resolve to the Ethernet broadcast address. -/
def ip_to_mac (ip : Nat) : Mac :=
  match ipConfig.find? (fun e => e.2 == ip) with
  | some e => e.1
  | none => etherBroadcast

/-- Table lookup `mac_to_ip` (lines 119-129): look a MAC up in the table; unknown MACs
resolve to 0. -/
def mac_to_ip (mac : Mac) : Nat :=
  match ipConfig.find? (fun e => e.1 == mac) with
  | some e => e.2
  | none => 0

/-- The 16-bit-word accumulation loop of `lwip_queue::ip_sum`
(lines 132-150): `sum` is a `uint32_t`; after each addition, if bit 31 is
set the sum is folded once. -/
def ipSumAcc : List Nat → Nat → Nat
  | [], s => s
  | w :: ws, s =>
    let s1 := (s + w) % 2 ^ 32
    let s2 := if 2 ^ 31 ≤ s1 then s1 % 2 ^ 16 + s1 / 2 ^ 16 else s1
    ipSumAcc ws s2

/-- The final `while (sum >> 16)` folding loop of `ip_sum`; `fuel` bounds
the iterations (each iteration strictly decreases the sum, so `s` itself is
always enough fuel). -/
def ipFoldAux : Nat → Nat → Nat
  | 0, s => s
  | fuel + 1, s => if s < 2 ^ 16 then s else ipFoldAux fuel (s % 2 ^ 16 + s / 2 ^ 16)

/-- `lwip_queue::ip_sum` over a list of 16-bit words: accumulate, fold, and
return the 16-bit one's complement (`sum_out = ~sum` truncated to
`uint16_t`). -/
def ip_sum (ws : List Nat) : Nat :=
  let s := ipFoldAux (ipSumAcc ws 0) (ipSumAcc ws 0)
  (2 ^ 16 - 1) - s % 2 ^ 16

/-- The ten little-endian 16-bit words of the 20-byte IPv4 header as
complete_send builds it (version_ihl 0x45, tos 0, total_length as stored,
id 0, frag 0, ttl 64, proto UDP=17, checksum 0 while summing, then the
stored source and destination addresses). -/
def ipWords (lenStored src dst : Nat) : List Nat :=
  [0x45, lenStored, 0, 0, 64 + 256 * 17, 0,
   src % 2 ^ 16, src / 2 ^ 16 % 2 ^ 16, dst % 2 ^ 16, dst / 2 ^ 16 % 2 ^ 16]

/-- A `struct sockaddr_in`, reduced to the two fields the code reads: the
raw 16-bit `sin_port` field value and the raw 32-bit `sin_addr.s_addr`
field value, both exactly as stored by the caller or by `bind`. -/
structure SockAddrIn where
  port : Nat
  addr : Nat
  deriving DecidableEq, Repr

/-- The `lwip_queue` fields the data path reads: `my_bound_addr` and
`my_default_peer`. -/
structure LwipState where
  boundAddr : Option SockAddrIn
  defaultPeer : Option SockAddrIn
  deriving DecidableEq, Repr

/-- One transmitted Ethernet/IPv4/UDP frame; every multi-byte header field
holds the value exactly as complete_send stored it into packet memory
(i.e. after any `htons`/`htonl`), and `body` is the byte sequence after the
UDP header: a u32 segment count, then per segment a u32 length cell and the
segment bytes. -/
structure Pkt where
  ethDst : Mac
  ethSrc : Mac
  ethType : Nat
  ipVihl : Nat
  ipTtl : Nat
  ipProto : Nat
  ipLen : Nat
  ipCksum : Nat
  ipSrc : Nat
  ipDst : Nat
  udpSrc : Nat
  udpDst : Nat
  udpLen : Nat
  body : List Nat
  deriving DecidableEq, Repr

def ETHER_TYPE_IPv4 : Nat := 0x0800

/-- The datagram payload complete_send writes after the UDP header:
`sga.sga_numsegs` as a u32, then per segment a u32 length cell and the
segment bytes (lines 508-525). -/
def pktPayload (sga : List (List Nat)) : List Nat :=
  leEnc 4 sga.length ++ encSegs 4 sga

/-- Model of `dmtr::lwip_queue::complete_send` (lines 433-571) up to the burst
transmit: resolve the destination (`my_default_peer` if set, else the
SGA's attached address; neither present is the `DMTR_TRUE(EINVAL, ...)`
failure, modelled `none`), then build the frame.  Source MAC is the NIC's;
destination MAC is the table lookup of the `htonl`-ed destination field;
the source IP is the `htonl`-ed bound address (or the MAC-derived address
when unbound) while the destination IP field is copied raw; the UDP
destination port is the `htons`-ed peer port and the source port is the
`htons`-ed bound port — or a copy of the already-converted destination
port when unbound.  `ip_hdr.total_length` is `htons(28)` (header sizes
only, as in the source).  `dmtr_u32tou16` fails (`none`) if the UDP length
overflows 16 bits. -/
def complete_send (localMac : Mac) (q : LwipState) (sga : List (List Nat))
    (sgaAddr : Option SockAddrIn) : Option Pkt :=
  let saddr? := match q.defaultPeer with
    | none => sgaAddr
    | some p => some p
  match saddr? with
  | none => none
  | some saddr =>
    let ethDst := ip_to_mac (swap32 saddr.addr)
    let ipSrc := match q.boundAddr with
      | some b => swap32 b.addr
      | none => swap32 (mac_to_ip localMac)
    let ipLen := swap16 (8 + 20)
    let udpDst := swap16 saddr.port
    let udpSrc := match q.boundAddr with
      | some b => swap16 b.port
      | none => udpDst
    let payloadLen := (pktPayload sga).length
    if 8 + payloadLen < 2 ^ 16 then
      some { ethDst := ethDst, ethSrc := localMac, ethType := swap16 ETHER_TYPE_IPv4,
             ipVihl := 0x45, ipTtl := 64, ipProto := 17, ipLen := ipLen,
             ipCksum := swap16 (ip_sum (ipWords ipLen ipSrc saddr.addr)),
             ipSrc := ipSrc, ipDst := saddr.addr,
             udpSrc := udpSrc, udpDst := udpDst, udpLen := swap16 (8 + payloadLen),
             body := pktPayload sga }
    else none

/-- Final phase of `complete_recv` (lines 674-726): slice the datagram body
into the SGA (u32 segment count, then per segment a u32 length cell and a
freshly copied body), and, when the caller supplied a `sockaddr_in`-sized
address slot, fill it with the (ntohs-ed) UDP source port and the raw IP
source-address field of the packet. -/
def recvParse (pkt : Pkt) (wantAddr : Bool) :
    Option (List (List Nat) × Option SockAddrIn) :=
  let segs := (parseSegs 4 (leDec 4 pkt.body) (pkt.body.drop 4)).1
  some (segs, if wantAddr then some ⟨swap16 pkt.udpSrc, pkt.ipSrc⟩ else none)

/-- UDP destination-port check of complete_recv (lines 664-672): when
bound, drop the packet unless `ntohs(udp_hdr->dst_port)` equals the bound
`sin_port` field. -/
def recvCheckPort (q : LwipState) (pkt : Pkt) (wantAddr : Bool) :
    Option (List (List Nat) × Option SockAddrIn) :=
  match q.boundAddr with
  | some b => if swap16 pkt.udpDst = b.port then recvParse pkt wantAddr else none
  | none => recvParse pkt wantAddr

/-- IP protocol check of complete_recv (lines 646-651): drop unless UDP. -/
def recvCheckProto (q : LwipState) (pkt : Pkt) (wantAddr : Bool) :
    Option (List (List Nat) × Option SockAddrIn) :=
  if pkt.ipProto = 17 then recvCheckPort q pkt wantAddr else none

/-- IP destination check of complete_recv (lines 635-644): when bound, drop
unless the raw `dst_addr` field equals the bound `s_addr` field. -/
def recvCheckIp (q : LwipState) (pkt : Pkt) (wantAddr : Bool) :
    Option (List (List Nat) × Option SockAddrIn) :=
  match q.boundAddr with
  | some b => if pkt.ipDst = b.addr then recvCheckProto q pkt wantAddr else none
  | none => recvCheckProto q pkt wantAddr

/-- Model of `dmtr::lwip_queue::complete_recv` (lines 573-727): validate the
received frame — destination MAC must be the local NIC's, ethertype must
be IPv4, then the IP/UDP checks — and parse it.  `none` models the silent
drop (`return 0` without marking the task done) and so also covers every
path on which no token can complete from the packet. -/
def complete_recv (localMac : Mac) (q : LwipState) (pkt : Pkt) (wantAddr : Bool) :
    Option (List (List Nat) × Option SockAddrIn) :=
  if localMac = pkt.ethDst then
    if swap16 pkt.ethType = ETHER_TYPE_IPv4 then recvCheckIp q pkt wantAddr
    else none
  else none

end Lwip

namespace Lwip

/-- C2 counterexample: a sender bound to `sin_addr` field value 1, port
9000, sends a one-segment SGA to destination ⟨port 7, addr 2⟩; the
receiver (bound to that destination, with the NIC MAC the frame was
addressed to) reproduces the SGA, but the peer-address slot receives
`sin_addr = 16777216` — the byte-swapped (`htonl`) image of the sender's
bound field 1 — not the sender's address ⟨9000, 1⟩.  The sender's source
port round-trips; its source IP does not. -/
theorem packet_roundtrip_peer_counterexample :
    ((complete_send [1, 2, 3, 4, 5, 6] ⟨some ⟨9000, 1⟩, none⟩
        [[112, 105, 110, 103]] (some ⟨7, 2⟩)).bind
      (fun pkt => complete_recv (ip_to_mac (swap32 2)) ⟨some ⟨7, 2⟩, none⟩ pkt true)) =
      some ([[112, 105, 110, 103]], some ⟨9000, 16777216⟩) ∧
    (⟨9000, 16777216⟩ : SockAddrIn) ≠ ⟨9000, 1⟩ := by
  constructor
  · decide
  · decide

/-- C2 amended: for every SGA whose encoded frame fits in one datagram,
a bound sender's `complete_send` followed by `complete_recv` on a queue
bound to the destination address reproduces the SGA (identical segment
count, lengths and bytes), and fills the receiver's `sockaddr_in` slot
with the sender's source UDP port — equal to the sender's bound port —
and with the raw wire source-IP field, which is the byte-swapped
(`htonl`) image of the sender's bound `sin_addr` field, not that field
itself. -/
theorem packet_roundtrip_amended (senderMac : Mac) (sb dst : SockAddrIn)
    (sga : List (List Nat)) (pkt : Pkt)
    (hsbp : sb.port < 2 ^ 16) (hdstp : dst.port < 2 ^ 16)
    (hsegs : ∀ b ∈ sga, b.length < 2 ^ 32) (hcnt : sga.length < 2 ^ 32)
    (hmtu : 42 + (pktPayload sga).length ≤ 1518)
    (hsend : complete_send senderMac ⟨some sb, none⟩ sga (some dst) = some pkt) :
    complete_recv (ip_to_mac (swap32 dst.addr)) ⟨some dst, none⟩ pkt true =
      some (sga, some ⟨sb.port, swap32 sb.addr⟩) := by
  simp only [complete_send] at hsend
  rw [if_pos (show 8 + (pktPayload sga).length < 2 ^ 16 by omega)] at hsend
  injection hsend with hpkt
  subst hpkt
  have hethdec : swap16 (swap16 ETHER_TYPE_IPv4) = ETHER_TYPE_IPv4 := by decide
  have hdec : leDec 4 (pktPayload sga) = sga.length := by
    rw [pktPayload, leDec_leEnc_append, Nat.mod_eq_of_lt (by norm_num; omega)]
  have hdrop : (pktPayload sga).drop 4 = encSegs 4 sga := drop_leEnc 4 _ _
  have hparse : parseSegs 4 sga.length (encSegs 4 sga) = (sga, payload sga) :=
    parseSegs_encSegs 4 sga (by intro b hb; have := hsegs b hb; norm_num; omega)
  simp [complete_recv, recvCheckIp, recvCheckProto, recvCheckPort, recvParse,
    hethdec, swap16_swap16 dst.port hdstp, swap16_swap16 sb.port hsbp,
    hdec, hdrop, hparse]

/-- Witness for C2's amended statement at the counterexample's inputs. -/
theorem packet_roundtrip_amended_witness :
    complete_recv (ip_to_mac (swap32 2)) ⟨some ⟨7, 2⟩, none⟩
        { ethDst := [255, 255, 255, 255, 255, 255], ethSrc := [1, 2, 3, 4, 5, 6],
          ethType := 8, ipVihl := 69, ipTtl := 64, ipProto := 17, ipLen := 7168,
          ipCksum := 30929, ipSrc := 16777216, ipDst := 2, udpSrc := 10275,
          udpDst := 1792, udpLen := 5120,
          body := [1, 0, 0, 0, 4, 0, 0, 0, 112, 105, 110, 103] } true =
      some ([[112, 105, 110, 103]], some ⟨9000, swap32 1⟩) :=
  packet_roundtrip_amended [1, 2, 3, 4, 5, 6] ⟨9000, 1⟩ ⟨7, 2⟩
    [[112, 105, 110, 103]] _ (by decide) (by decide) (by decide) (by decide)
    (by decide) (by decide)

/-- C8: Packet-backend receive validation.  Every received packet whose
destination MAC differs from the local NIC's, or whose ethertype is not
IPv4, or (when bound) whose IP destination field differs from the bound
address field, or whose IP protocol is not UDP, or (when bound) whose
ntohs-ed UDP destination port differs from the bound port, is dropped
silently: `complete_recv` yields `none`, so no task is marked done and no
token ever completes from that packet. -/
theorem recv_validation_drops (localMac : Mac) (q : LwipState) (pkt : Pkt)
    (wantAddr : Bool)
    (h : localMac ≠ pkt.ethDst ∨ swap16 pkt.ethType ≠ ETHER_TYPE_IPv4 ∨
         (∃ b, q.boundAddr = some b ∧ pkt.ipDst ≠ b.addr) ∨ pkt.ipProto ≠ 17 ∨
         (∃ b, q.boundAddr = some b ∧ swap16 pkt.udpDst ≠ b.port)) :
    complete_recv localMac q pkt wantAddr = none := by
  unfold complete_recv recvCheckIp recvCheckProto recvCheckPort
  rcases h with h | h | ⟨b, hb, h⟩ | h | ⟨b, hb, h⟩
  · rw [if_neg h]
  · by_cases h1 : localMac = pkt.ethDst
    · rw [if_pos h1, if_neg h]
    · rw [if_neg h1]
  · by_cases h1 : localMac = pkt.ethDst
    · rw [if_pos h1]
      by_cases h2 : swap16 pkt.ethType = ETHER_TYPE_IPv4
      · rw [if_pos h2]
        simp only [hb]
        rw [if_neg h]
      · rw [if_neg h2]
    · rw [if_neg h1]
  · by_cases h1 : localMac = pkt.ethDst
    · rw [if_pos h1]
      by_cases h2 : swap16 pkt.ethType = ETHER_TYPE_IPv4
      · rw [if_pos h2]
        cases hq : q.boundAddr with
        | none => simp only [hq]; rw [if_neg h]
        | some b =>
          simp only [hq]
          by_cases h3 : pkt.ipDst = b.addr
          · rw [if_pos h3, if_neg h]
          · rw [if_neg h3]
      · rw [if_neg h2]
    · rw [if_neg h1]
  · by_cases h1 : localMac = pkt.ethDst
    · rw [if_pos h1]
      by_cases h2 : swap16 pkt.ethType = ETHER_TYPE_IPv4
      · rw [if_pos h2]
        simp only [hb]
        by_cases h3 : pkt.ipDst = b.addr
        · rw [if_pos h3]
          by_cases h4 : pkt.ipProto = 17
          · rw [if_pos h4, if_neg h]
          · rw [if_neg h4]
        · rw [if_neg h3]
      · rw [if_neg h2]
    · rw [if_neg h1]

/-- Witness for C8: a UDP packet aimed at port 9 is dropped by a queue
bound to port 7 even though every other check passes. -/
theorem recv_validation_drops_witness :
    complete_recv [1, 2, 3, 4, 5, 6] ⟨some ⟨7, 2⟩, none⟩
        { ethDst := [1, 2, 3, 4, 5, 6], ethSrc := [9, 9, 9, 9, 9, 9],
          ethType := 8, ipVihl := 69, ipTtl := 64, ipProto := 17, ipLen := 7168,
          ipCksum := 0, ipSrc := 0, ipDst := 2, udpSrc := 0,
          udpDst := swap16 9, udpLen := 0, body := [0, 0, 0, 0] } true = none :=
  recv_validation_drops [1, 2, 3, 4, 5, 6] ⟨some ⟨7, 2⟩, none⟩ _ true
    (Or.inr (Or.inr (Or.inr (Or.inr ⟨⟨7, 2⟩, rfl, by decide⟩))))

/-- C10: On an unbound packet queue, `complete_send` copies the UDP
destination-port field into the source-port field (the `udp_hdr->src_port
= udp_hdr->dst_port` branch), so every datagram an unbound sender
transmits carries a source port equal to its destination port. -/
theorem unbound_send_src_port (localMac : Mac) (q : LwipState)
    (sga : List (List Nat)) (sgaAddr : Option SockAddrIn) (pkt : Pkt)
    (hunbound : q.boundAddr = none)
    (hsend : complete_send localMac q sga sgaAddr = some pkt) :
    pkt.udpSrc = pkt.udpDst := by
  simp only [complete_send, hunbound] at hsend
  rcases hq : q.defaultPeer with _ | p <;> rw [hq] at hsend
  · rcases ha : sgaAddr with _ | a <;> rw [ha] at hsend
    · exact absurd hsend (by simp)
    · simp only [] at hsend
      split_ifs at hsend
      injection hsend with hpkt
      rw [← hpkt]
  · simp only [] at hsend
    split_ifs at hsend
    injection hsend with hpkt
    rw [← hpkt]

/-- The frame a concrete unbound queue transmits to ⟨port 7, addr 2⟩. -/
def unboundPktEx : Pkt :=
  { ethDst := [255, 255, 255, 255, 255, 255], ethSrc := [1, 2, 3, 4, 5, 6],
    ethType := 8, ipVihl := 69, ipTtl := 64, ipProto := 17, ipLen := 7168,
    ipCksum := 30930, ipSrc := 0, ipDst := 2, udpSrc := 1792, udpDst := 1792,
    udpLen := 5120, body := [1, 0, 0, 0, 4, 0, 0, 0, 112, 105, 110, 103] }

/-- Witness for C10: the concrete unbound send produces `unboundPktEx`,
whose source port equals its destination port. -/
theorem unbound_send_src_port_witness :
    unboundPktEx.udpSrc = unboundPktEx.udpDst :=
  unbound_send_src_port [1, 2, 3, 4, 5, 6] ⟨none, none⟩ [[112, 105, 110, 103]]
    (some ⟨7, 2⟩) unboundPktEx rfl (by decide)

end Lwip

namespace MTCP

/-- C1: Stream-backend round-trip.  For every scatter-gather array of 1 to 8
segments whose total payload is at most 64 KiB, encoding it with the push
path (ProcessOutgoing's 24-byte header of MAGIC, payload length and segment
count, then per-segment u64 length cell and body) and then progressively
decoding the resulting byte stream with ProcessIncoming, delivered one byte
at a time, completes and yields an SGA with the identical segment count and
identical per-segment bytes. -/
theorem stream_roundtrip_onebyte (sga : List (List Nat))
    (h1 : 1 ≤ sga.length) (h2 : sga.length ≤ 8) (h3 : payload sga ≤ 65536) :
    (feedBytes freshReq (encodeFrame sga)).isDone = true ∧
    (feedBytes freshReq (encodeFrame sga)).sga = sga := by
  rw [feedBytes_encodeFrame sga h1 h2 h3]
  exact ⟨rfl, rfl⟩

/-- Witness for C1 at the two-segment SGA ["hello", "world"]. -/
theorem stream_roundtrip_onebyte_witness :
    (feedBytes freshReq
        (encodeFrame [[104, 101, 108, 108, 111], [119, 111, 114, 108, 100]])).sga =
      [[104, 101, 108, 108, 111], [119, 111, 114, 108, 100]] :=
  (stream_roundtrip_onebyte [[104, 101, 108, 108, 111], [119, 111, 114, 108, 100]]
    (by decide) (by decide) (by decide)).2

/-- C3: Magic gating.  Once the 24 header bytes have been accumulated, if
the first 8-byte word of the header does not decode to MAGIC the request is
marked done with result -1, and the call consumes no further bytes from the
stream and leaves the payload buffer untouched (the returned request
differs from `req` only in `isDone` and `res`, and the available bytes are
returned intact). -/
theorem magic_gating (req : PendingReq) (avail : List Nat)
    (h24 : req.numBytes = 24) (hm : leDec 8 req.header ≠ MAGIC) :
    ProcessIncoming req avail = ({ req with isDone := true, res := -1 }, avail) := by
  unfold ProcessIncoming
  rw [if_neg (show ¬(req.numBytes < 24) by omega)]
  unfold stage2
  rw [if_pos hm]

/-- Witness for C3: an all-zero header is not MAGIC; the three available
bytes are not consumed. -/
theorem magic_gating_witness :
    ProcessIncoming
        { header := List.replicate 24 0, numBytes := 24, buf := none, sga := [],
          isDone := false, res := 0 } [7, 8, 9] =
      ({ header := List.replicate 24 0, numBytes := 24, buf := none, sga := [],
         isDone := true, res := -1 }, [7, 8, 9]) :=
  magic_gating
    { header := List.replicate 24 0, numBytes := 24, buf := none, sga := [],
      isDone := false, res := 0 } [7, 8, 9] rfl (by decide)

/-- A freshly constructed push-side `PendingRequest req(sga)`. -/
def freshPush (sga : List (List Nat)) : PendingReq :=
  { header := [], numBytes := 0, buf := none, sga := sga, isDone := false, res := 0 }

/-- C7: Completion result is the payload byte count.  A push whose writev
drains the whole frame completes with `res` equal to the sum of the
segment lengths (excluding the 24-byte header and the 8-byte length
cells), and the matching pop, after consuming the encoded frame, completes
with the same result. -/
theorem completion_result_payload (sga : List (List Nat))
    (h1 : 1 ≤ sga.length) (h2 : sga.length ≤ 8) (h3 : payload sga ≤ 65536) :
    ((ProcessOutgoing (freshPush sga) (24 + encLen sga)).1.isDone = true ∧
      (ProcessOutgoing (freshPush sga) (24 + encLen sga)).1.res =
        (payload sga : Int)) ∧
    ((feedBytes freshReq (encodeFrame sga)).isDone = true ∧
      (feedBytes freshReq (encodeFrame sga)).res = (payload sga : Int)) := by
  constructor
  · simp only [ProcessOutgoing, freshPush, min_self]
    rw [if_neg (show ¬(0 + (24 + encLen sga) < 24 + encLen sga) by omega)]
    exact ⟨rfl, rfl⟩
  · rw [feedBytes_encodeFrame sga h1 h2 h3]
    exact ⟨rfl, rfl⟩

/-- Witness for C7 at the SGA of two 5-byte segments from the spec's S1
scenario: both sides complete with result 10. -/
theorem completion_result_payload_witness :
    (ProcessOutgoing
        (freshPush [[104, 101, 108, 108, 111], [119, 111, 114, 108, 100]])
        (24 + encLen [[104, 101, 108, 108, 111], [119, 111, 114, 108, 100]])).1.res =
      (10 : Int) :=
  ((completion_result_payload [[104, 101, 108, 108, 111], [119, 111, 114, 108, 100]]
    (by decide) (by decide) (by decide)).1).2

/-- A done request: used as the pending-map entry of concrete
counterexample states. -/
def doneEx : PendingReq :=
  { header := [], numBytes := 0, buf := none, sga := [[1]], isDone := true, res := 5 }

/-- A queue whose pending map holds token 2 with a completed request. -/
def qEx4 : QState := { pending := [(2, doneEx)], workQ := [], stream := [], txCap := 0 }

/-- C4 counterexample: token 2's request is done, yet the next `poll` and
the next `wait` naming that token both return the queue state unchanged —
the token's entry is still in the pending map afterwards (neither wait nor
poll ever erases from the map; no drop exists on this backend), so the
claimed removal does not happen. -/
theorem pending_removal_counterexample :
    poll qEx4 2 = some (5, some [[1]], qEx4) ∧
    wait 2 7 qEx4 = some (5, qEx4) ∧
    List.lookup 2 qEx4.pending ≠ none := by decide

theorem stage2_done_mono (req : PendingReq) (avail : List Nat)
    (h : req.isDone = true) : (stage2 req avail).1.isDone = true := by
  dsimp only [stage2, parseDone]
  split_ifs <;> (first | rfl | exact h)

theorem ProcessIncoming_done_mono (req : PendingReq) (avail : List Nat)
    (h : req.isDone = true) : (ProcessIncoming req avail).1.isDone = true := by
  dsimp only [ProcessIncoming]
  split_ifs with h1 h2 h3
  · exact h
  · exact h
  · exact stage2_done_mono _ _ h
  · exact stage2_done_mono _ _ h

theorem ProcessOutgoing_done_mono (req : PendingReq) (txCap : Nat)
    (h : req.isDone = true) : (ProcessOutgoing req txCap).1.isDone = true := by
  dsimp only [ProcessOutgoing]
  split_ifs <;> (first | rfl | exact h)

/-- C4 amended: a pending request's done flag transitions false→true at
most once (both progress paths preserve an already-set done flag and never
reset it), but the token's entry is NOT removed from the pending map by
the next `wait` or `poll` naming it: both return the request's result and
leave the queue state — the pending map included — unchanged. -/
theorem pending_lifecycle_amended (req : PendingReq) (avail : List Nat) (txCap : Nat)
    (q : QState) (qt : Nat) (fuel : Nat) (req0 : PendingReq)
    (hdone : req.isDone = true)
    (hlook : List.lookup qt q.pending = some req0) (hdone0 : req0.isDone = true) :
    (ProcessIncoming req avail).1.isDone = true ∧
    (ProcessOutgoing req txCap).1.isDone = true ∧
    poll q qt = some (req0.res, some req0.sga, q) ∧
    wait qt fuel q = some (req0.res, q) := by
  refine ⟨ProcessIncoming_done_mono req avail hdone,
    ProcessOutgoing_done_mono req txCap hdone, ?_, ?_⟩
  · unfold poll
    rw [hlook]
    simp [hdone0]
  · cases fuel <;> (unfold wait; rw [hlook]; simp [hdone0])

/-- Witness for C4's amended statement at the concrete done state. -/
theorem pending_lifecycle_amended_witness :
    (ProcessIncoming doneEx [5]).1.isDone = true ∧
    (ProcessOutgoing doneEx 0).1.isDone = true ∧
    poll qEx4 2 = some (doneEx.res, some doneEx.sga, qEx4) ∧
    wait 2 3 qEx4 = some (doneEx.res, qEx4) :=
  pending_lifecycle_amended doneEx [5] 0 qEx4 2 3 doneEx rfl (by decide) rfl

/-- A queue whose transport holds a single byte — a proper prefix of any
frame. -/
def qEx5 : QState := { pending := [], workQ := [], stream := [3], txCap := 0 }

/-- C5 counterexample: `peek` on a queue whose transport holds one byte of
a not-yet-complete frame returns 0 as claimed, but it does NOT leave the
stream state unchanged: the byte is consumed into the discarded local
request and lost. -/
theorem peek_consumes_bytes_counterexample :
    (peek qEx5).1 = 0 ∧ (peek qEx5).2 ≠ qEx5 ∧ (peek qEx5).2.stream = [] := by decide

theorem encodeFrame_length (sga : List (List Nat)) :
    (encodeFrame sga).length = 24 + encLen sga := by
  rw [encodeFrame_eq]
  simp [List.length_append, frameHdr_length, encSegs_length, encLen]

/-- C5 amended: `peek` never parks anything (it touches neither the
pending map nor the work queue); when the transport holds no bytes it
returns 0 and leaves the whole queue state unchanged, but when the
transport holds any nonempty proper prefix of an encoded frame — header
bytes alone, or the complete header plus part of the payload — it returns
0 and consumes (loses) those bytes into the discarded local request. -/
theorem peek_amended (q : QState) (sga : List (List Nat)) (k : Nat)
    (h1 : 1 ≤ sga.length) (h2 : sga.length ≤ 8) (h3 : payload sga ≤ 65536) :
    (q.stream = [] → peek q = (0, q)) ∧
    (0 < k → k < (encodeFrame sga).length → q.stream = (encodeFrame sga).take k →
      peek q = (0, { q with stream := [] }) ∧
      (peek q).2.pending = q.pending ∧ (peek q).2.workQ = q.workQ) := by
  constructor
  · intro h
    obtain ⟨p, w, s, t⟩ := q
    simp only at h
    subst h
    rfl
  · intro hk0 hklen hstream
    have hlen64 : encLen sga < 256 ^ 8 := by
      have := encLen_eq sga
      norm_num
      omega
    have hpaylen : (encSegs 8 sga).length = encLen sga := encSegs_length 8 sga
    have hdl : leDec 8 ((frameHdr sga).drop 8) = (encSegs 8 sga).length := by
      rw [frameHdr_drop8, leDec_leEnc_append, Nat.mod_eq_of_lt hlen64, hpaylen]
    have hpos : 0 < (encSegs 8 sga).length := by
      rw [hpaylen, encLen_eq]
      omega
    have hk' : k < 24 + (encSegs 8 sga).length := by
      rw [hpaylen]
      rw [encodeFrame_length] at hklen
      omega
    have hproc : ProcessIncoming freshReq q.stream =
        (midReq (frameHdr sga) (encSegs 8 sga) k, []) := by
      rw [hstream, encodeFrame_eq]
      exact ProcessIncoming_prefix (frameHdr sga) (encSegs 8 sga) k
        (frameHdr_length sga) (frameHdr_dec0 sga) hdl hpos hk0 hk'
    have hpeek : peek q = (0, { q with stream := [] }) := by
      unfold peek
      rw [hproc]
      simp [midReq_isDone]
    exact ⟨hpeek, by rw [hpeek], by rw [hpeek]⟩

/-- A queue whose transport holds nothing at all. -/
def qEmptyEx : QState := { pending := [], workQ := [], stream := [], txCap := 0 }

/-- A queue whose transport holds a 30-byte prefix of the 35-byte frame
for the SGA [[1,2,3]]: the complete 24-byte header plus 6 of the 11
payload bytes. -/
def qPrefixEx : QState :=
  { pending := [], workQ := [], stream := (encodeFrame [[1, 2, 3]]).take 30, txCap := 0 }

/-- Witness for C5's amended statement: the empty-transport case, and the
complete-header-plus-partial-payload case, which peek consumes while
returning 0. -/
theorem peek_amended_witness :
    peek qEmptyEx = (0, qEmptyEx) ∧
    peek qPrefixEx = (0, { qPrefixEx with stream := [] }) :=
  ⟨(peek_amended qEmptyEx [[1, 2, 3]] 1 (by decide) (by decide) (by decide)).1 rfl,
   ((peek_amended qPrefixEx [[1, 2, 3]] 30 (by decide) (by decide) (by decide)).2
      (by decide) (by decide) rfl).1⟩

/-- C6: Progress-step semantics.  One invocation of `ProcessQ(1)` on a
queue whose work queue has head token `qt`: if `qt` has no pending-map
entry (cancelled) it is discarded without dispatching and nothing else
changes; otherwise the pending request is dispatched to ProcessOutgoing or
ProcessIncoming according to the token's operation bit, the map entry and
stream are updated, and the token is removed from the work queue if and
only if the request is now done. -/
theorem progress_step_semantics (q : QState) (qt : Nat) (rest : List Nat)
    (h : q.workQ = qt :: rest) :
    (List.lookup qt q.pending = none → ProcessQ 1 q = { q with workQ := rest }) ∧
    (∀ req, List.lookup qt q.pending = some req →
      ProcessQ 1 q =
        (let d := if IS_PUSH qt then ((ProcessOutgoing req q.txCap).1, q.stream)
                  else ProcessIncoming req q.stream
         let q1 : QState := { q with pending := updatePending q.pending qt d.1,
                                     stream := d.2 }
         if d.1.isDone then { q1 with workQ := rest } else q1)) := by
  constructor
  · intro hnone
    unfold ProcessQ
    rw [h]
    simp only [hnone]
    rfl
  · intro req hreq
    unfold ProcessQ
    rw [h]
    simp only [hreq]
    split <;> rfl

/-- Witness for C6: a concrete queue with a cancelled head token and one
with a live pop token. -/
theorem progress_step_semantics_witness :
    ProcessQ 1 { pending := [], workQ := [4], stream := [], txCap := 0 } =
      { pending := [], workQ := [], stream := [], txCap := 0 } :=
  (progress_step_semantics
    { pending := [], workQ := [4], stream := [], txCap := 0 } 4 [] rfl).1 rfl

/-- C9: `MTCPQueue::socket` always returns the queue's own descriptor `qd`,
for every value `sockRet` returned by the underlying `mtcp_socket` —
including negative failures — so a transport socket-creation failure is
never surfaced through the return value. -/
theorem socket_returns_qd (s : SockState) (sockRet : Int) :
    (socketOp s sockRet).1 = s.qd := rfl

end MTCP

end Demikernel
